import Mathlib

/-!
Verification of the support/resistance detector (`src/support_resistance.py`)
and the trend classifier (`src/trend_detector.py`).

Prices are embedded as rationals: every arithmetic operation the two modules
perform on price data (addition, subtraction, multiplication, division,
absolute value, min/max, comparisons) is an exact field operation, so the
float pipeline of the source is modelled by the same pipeline over `ℚ`.
Bar timestamps are modelled by a natural number carried in the `date` field.

`Rat.add`, `Rat.mul`, `Rat.sub` and `Rat.inv` are `@[irreducible]` in the
library; they are made semireducible locally so that `decide` can evaluate
the embedded program on concrete inputs.
-/

attribute [local semireducible] Rat.add Rat.mul Rat.sub Rat.inv

set_option maxRecDepth 40000

/-- One OHLC bar of the input series (`high`, `low`, `close` columns of the
DataFrame; `date` models the bar's `datetime` value). -/
structure Bar where
  high : ℚ
  low : ℚ
  close : ℚ
  date : ℕ
deriving DecidableEq

/-- Junk bar used as the default for out-of-range indexing; all lookups in
the embedding are within bounds whenever the source performs them. -/
def defaultBar : Bar := ⟨0, 0, 0, 0⟩

/-- The constructor parameters of `SimpleSRDetector.__init__`. -/
structure SRConfig where
  lookback_bars : ℕ
  min_touches : ℕ
  cluster_threshold_atr : ℚ
  include_round_numbers : Bool
deriving DecidableEq

/-- The default parameters of `SimpleSRDetector.__init__`
(`lookback_bars=100`, `min_touches=2`, `cluster_threshold_atr=0.5`,
`include_round_numbers=True`). -/
def defaultSRConfig : SRConfig := ⟨100, 2, 1/2, true⟩

/-- The true-range series of `calculate_atr`, lines 61-69: the first bar has
no previous close (`close.shift(1)` is NaN there and `max(axis=1)` skips NaN),
so its TR is `high - low`; every later bar's TR is
`max(high - low, |high - prevClose|, |low - prevClose|)`. -/
def trueRanges : List Bar → List ℚ
  | [] => []
  | b :: bs =>
    (b.high - b.low) ::
      (List.zipWith
        (fun prev cur =>
          max (cur.high - cur.low) (max |cur.high - prev.close| |cur.low - prev.close|))
        (b :: bs) bs)

/-- The last entry of `calculate_atr(df)` (line 70, `rolling(window=14).mean()`
read at `iloc[-1]` on line 207): the mean of the last 14 true ranges.
`detect_sr_levels` evaluates it only behind its `len(df) >= 50` guard, where
the rolling window is full, hence never NaN, so the `pd.isna` fallback of
lines 208-209 is dead there. -/
def calculate_atr_last (bars : List Bar) : ℚ :=
  (((trueRanges bars).drop ((trueRanges bars).length - 14)).sum) / 14

/-- `df['high'].max()` over a window; the source only takes the max of
nonempty windows, so the `[]` case is unreachable junk. -/
def maxHigh : List Bar → ℚ
  | [] => 0
  | [b] => b.high
  | b :: b2 :: bs => max b.high (maxHigh (b2 :: bs))

/-- `df['low'].min()` over a window; nonempty in every use. -/
def minLow : List Bar → ℚ
  | [] => 0
  | [b] => b.low
  | b :: b2 :: bs => min b.low (minLow (b2 :: bs))

/-- A raw swing point as built by `find_swing_points`
(the dict `{'index': i, 'price': ..., 'date': ...}`). -/
structure RawLevel where
  index : ℕ
  price : ℚ
  date : ℕ
deriving DecidableEq

/-- `find_swing_points`, lines 74-108.  With fewer than `lookback_bars` bars
it returns two empty lists; otherwise it scans the last `lookback_bars` bars
and, for each position `i` in `range(5, len-5)`, reports a swing high when
`high[i]` strictly exceeds the max of the five highs before and the five
highs after (`iloc[i-5:i]` and `iloc[i+1:i+6]`), and dually a swing low. -/
def find_swing_points (cfg : SRConfig) (bars : List Bar) : List RawLevel × List RawLevel :=
  if bars.length < cfg.lookback_bars then ([], [])
  else
    let recent := bars.drop (bars.length - cfg.lookback_bars)
    let idxs := (List.range recent.length).filter fun i =>
      decide (5 ≤ i) && decide (i + 5 < recent.length)
    (idxs.filterMap fun i =>
      let b := recent.getD i defaultBar
      if maxHigh ((recent.drop (i - 5)).take 5) < b.high ∧
         maxHigh ((recent.drop (i + 1)).take 5) < b.high
      then some ⟨i, b.high, b.date⟩ else none,
     idxs.filterMap fun i =>
      let b := recent.getD i defaultBar
      if b.low < minLow ((recent.drop (i - 5)).take 5) ∧
         b.low < minLow ((recent.drop (i + 1)).take 5)
      then some ⟨i, b.low, b.date⟩ else none)

/-- The increment selection of `find_round_numbers`, lines 119-126. -/
def roundIncrement (max_price : ℚ) : ℤ :=
  if 10000 < max_price then 500
  else if 1000 < max_price then 50
  else if 100 < max_price then 5
  else 1

/-- Python `int()` on a float: truncation toward zero. -/
def int_trunc (q : ℚ) : ℤ := if q < 0 then q.ceil else q.floor

/-- `find_round_numbers`, lines 110-139.  The `while current <= max_price`
loop starting from `start = int(min_price / increment) * increment` and
stepping by `increment` visits exactly `start + k * increment` for
`k = 0, 1, ...` while the value stays `≤ max_price`; with `increment > 0`
that is `k < ⌊(max_price - start) / increment⌋ + 1` (and no iteration at all
when `start > max_price`).  A value is emitted when it lies in
`[min_price, max_price]` and is a multiple of `increment * 10`. -/
def find_round_numbers (cfg : SRConfig) (min_price max_price : ℚ) : List ℤ :=
  if !cfg.include_round_numbers then []
  else
    let inc := roundIncrement max_price
    let start := int_trunc (min_price / (inc : ℚ)) * inc
    let iters := if (start : ℚ) ≤ max_price
      then (((max_price - (start : ℚ)) / (inc : ℚ)).floor + 1).toNat else 0
    (List.range iters).filterMap fun (k : ℕ) =>
      let current := start + (k : ℤ) * inc
      if min_price ≤ (current : ℚ) ∧ (current : ℚ) ≤ max_price ∧ current % (inc * 10) = 0
      then some current else none

/-- Comparison key used by `sorted(levels, key=lambda x: x['price'])`. -/
def rawLe (a b : RawLevel) : Prop := a.price ≤ b.price

instance rawLeDecidable : DecidableRel rawLe := fun a b =>
  inferInstanceAs (Decidable (a.price ≤ b.price))

instance rawLeTotal : IsTotal RawLevel rawLe := ⟨fun a b => le_total a.price b.price⟩

instance rawLeTrans : IsTrans RawLevel rawLe := ⟨fun _ _ _ h h2 => le_trans h h2⟩

/-- `np.mean([l['price'] for l in cluster])`. -/
def clusterMean (c : List RawLevel) : ℚ := ((c.map RawLevel.price).sum) / (c.length : ℚ)

/-- The merged form of a cluster produced by `_merge_cluster`, lines 168-179. -/
structure ClusterLevel where
  price : ℚ
  touches : ℕ
  first_seen : Option ℕ
  last_seen : Option ℕ
deriving DecidableEq

/-- `_merge_cluster`: price is the mean of the members, touches the member
count, first/last seen the min/max member date (`None` on an empty date
list, which in this embedding happens only for the unreachable empty
cluster). -/
def merge_cluster (c : List RawLevel) : ClusterLevel :=
  ⟨clusterMean c, c.length, (c.map RawLevel.date).min?, (c.map RawLevel.date).max?⟩

/-- The walk of `cluster_levels`, lines 152-164: each level of the sorted
tail is absorbed into the running cluster when its price is within the
threshold of the cluster's current mean, else the cluster is closed. -/
def clusterLoop (thr : ℚ) (current : List RawLevel) : List RawLevel → List ClusterLevel
  | [] => [merge_cluster current]
  | l :: ls =>
    if |l.price - clusterMean current| ≤ thr
    then clusterLoop thr (current ++ [l]) ls
    else merge_cluster current :: clusterLoop thr [l] ls

/-- The number of times `clusterLoop` closes a cluster before the end of the
list; used to count output clusters. -/
def clusterBreaks (thr : ℚ) (current : List RawLevel) : List RawLevel → ℕ
  | [] => 0
  | l :: ls =>
    if |l.price - clusterMean current| ≤ thr
    then clusterBreaks thr (current ++ [l]) ls
    else clusterBreaks thr [l] ls + 1

/-- `cluster_levels`, lines 141-166: sort by price (Python `sorted` is a
stable sort, as is `List.insertionSort`), then greedily cluster with
threshold `atr * cluster_threshold_atr`. -/
def cluster_levels (cfg : SRConfig) (levels : List RawLevel) (atr : ℚ) : List ClusterLevel :=
  match List.insertionSort rawLe levels with
  | [] => []
  | first :: rest => clusterLoop (atr * cfg.cluster_threshold_atr) [first] rest

/-- `count_touches`, lines 181-192: the number of bars whose high lies within
`threshold` of the level plus the number of bars whose low does (a bar with
both extremes in range contributes twice). -/
def count_touches (cfg : SRConfig) (bars : List Bar) (level_price : ℚ) (atr : ℚ) : ℕ :=
  let threshold := atr * cfg.cluster_threshold_atr
  (bars.countP fun b =>
    decide (level_price - threshold ≤ b.high ∧ b.high ≤ level_price + threshold)) +
  (bars.countP fun b =>
    decide (level_price - threshold ≤ b.low ∧ b.low ≤ level_price + threshold))

/-- The output record `SimpleSRLevel` of the source module. -/
structure SimpleSRLevel where
  price : ℚ
  type : String
  touches : ℕ
  first_seen : Option ℕ
  last_seen : Option ℕ
  is_round_number : Bool
deriving DecidableEq

/-- `float(df.iloc[-1]['close'])`, the current price of `detect_sr_levels`. -/
def last_close (bars : List Bar) : ℚ := (bars.getLastD defaultBar).close

/-- Lines 219-222: the round-number candidates of `detect_sr_levels`, from
the observed price range extended to `[min_low * 0.95, max_high * 1.05]`. -/
def round_numbers_for (cfg : SRConfig) (bars : List Bar) : List ℤ :=
  if cfg.include_round_numbers
  then find_round_numbers cfg (minLow bars * (95/100)) (maxHigh bars * (105/100))
  else []

/-- Lines 242-254 and 256-273, support side: swing-low clusters are kept when
their price is strictly below the current close and they have enough touches;
a round number is kept as support when it has enough touches and is *not*
strictly above the close (`'resistance' if round_price > current_price else
'support'`), so a round number exactly at the close becomes support. -/
def support_candidates (cfg : SRConfig) (bars : List Bar) : List SimpleSRLevel :=
  let atr := calculate_atr_last bars
  let cp := last_close bars
  ((cluster_levels cfg (find_swing_points cfg bars).2 atr).filterMap fun lvl =>
    if lvl.price < cp ∧ cfg.min_touches ≤ lvl.touches
    then some ⟨lvl.price, "support", lvl.touches, lvl.first_seen, lvl.last_seen, false⟩
    else none) ++
  ((round_numbers_for cfg bars).filterMap fun (rp : ℤ) =>
    if cfg.min_touches ≤ count_touches cfg bars (rp : ℚ) atr ∧ ¬(cp < (rp : ℚ))
    then some ⟨(rp : ℚ), "support", count_touches cfg bars (rp : ℚ) atr,
               some (bars.headD defaultBar).date, some (bars.getLastD defaultBar).date, true⟩
    else none)

/-- Lines 228-240 and 256-273, resistance side: swing-high clusters strictly
above the close with enough touches, plus round numbers strictly above the
close with enough touches. -/
def resistance_candidates (cfg : SRConfig) (bars : List Bar) : List SimpleSRLevel :=
  let atr := calculate_atr_last bars
  let cp := last_close bars
  ((cluster_levels cfg (find_swing_points cfg bars).1 atr).filterMap fun lvl =>
    if cp < lvl.price ∧ cfg.min_touches ≤ lvl.touches
    then some ⟨lvl.price, "resistance", lvl.touches, lvl.first_seen, lvl.last_seen, false⟩
    else none) ++
  ((round_numbers_for cfg bars).filterMap fun (rp : ℤ) =>
    if cfg.min_touches ≤ count_touches cfg bars (rp : ℚ) atr ∧ cp < (rp : ℚ)
    then some ⟨(rp : ℚ), "resistance", count_touches cfg bars (rp : ℚ) atr,
               some (bars.headD defaultBar).date, some (bars.getLastD defaultBar).date, true⟩
    else none)

/-- Sort key of line 277: `(current_price - x.price, -x.touches)`,
lexicographically. -/
def supportLe (cp : ℚ) (a b : SimpleSRLevel) : Prop :=
  cp - a.price < cp - b.price ∨
    (cp - a.price = cp - b.price ∧ -(a.touches : ℤ) ≤ -(b.touches : ℤ))

instance supportLeDecidable (cp : ℚ) : DecidableRel (supportLe cp) := fun a b =>
  inferInstanceAs (Decidable (cp - a.price < cp - b.price ∨
    (cp - a.price = cp - b.price ∧ -(a.touches : ℤ) ≤ -(b.touches : ℤ))))

/-- Sort key of line 276: `(x.price - current_price, -x.touches)`,
lexicographically. -/
def resistanceLe (cp : ℚ) (a b : SimpleSRLevel) : Prop :=
  a.price - cp < b.price - cp ∨
    (a.price - cp = b.price - cp ∧ -(a.touches : ℤ) ≤ -(b.touches : ℤ))

instance resistanceLeDecidable (cp : ℚ) : DecidableRel (resistanceLe cp) := fun a b =>
  inferInstanceAs (Decidable (a.price - cp < b.price - cp ∨
    (a.price - cp = b.price - cp ∧ -(a.touches : ℤ) ≤ -(b.touches : ℤ))))

/-- `detect_sr_levels`, lines 194-281: below 50 bars return two empty lists;
otherwise collect candidates, sort each side by distance from the current
close (ties broken by descending touches; Python's stable `list.sort` is
modelled by the stable `List.insertionSort`), and keep the top
`max_support` / `max_resistance`. -/
def detect_sr_levels (cfg : SRConfig) (bars : List Bar)
    (max_support max_resistance : ℕ) : List SimpleSRLevel × List SimpleSRLevel :=
  if bars.length < 50 then ([], [])
  else
    ((List.insertionSort (supportLe (last_close bars)) (support_candidates cfg bars)).take
       max_support,
     (List.insertionSort (resistanceLe (last_close bars)) (resistance_candidates cfg bars)).take
       max_resistance)

/-- The full list of candidate levels that `detect_sr_levels` draws from
(clustered swing highs, clustered swing lows, round numbers), each with the
touch count the method attaches to it.  Used to state the partition claim. -/
def candidate_levels (cfg : SRConfig) (bars : List Bar) : List (ℚ × ℕ) :=
  let atr := calculate_atr_last bars
  ((cluster_levels cfg (find_swing_points cfg bars).1 atr).map fun l => (l.price, l.touches)) ++
  ((cluster_levels cfg (find_swing_points cfg bars).2 atr).map fun l => (l.price, l.touches)) ++
  ((round_numbers_for cfg bars).map fun (rp : ℤ) =>
    ((rp : ℚ), count_touches cfg bars (rp : ℚ) atr))

/-- The claim that every candidate below the close is considered as support
and every candidate above it as resistance, regardless of origin. -/
def partitionClaim (cfg : SRConfig) (bars : List Bar) : Prop :=
  ∀ p ∈ candidate_levels cfg bars, cfg.min_touches ≤ p.2 →
    (p.1 < last_close bars → ∃ s ∈ support_candidates cfg bars, s.price = p.1) ∧
    (last_close bars < p.1 → ∃ r ∈ resistance_candidates cfg bars, r.price = p.1)

instance partitionClaimDecidable (cfg : SRConfig) (bars : List Bar) :
    Decidable (partitionClaim cfg bars) :=
  inferInstanceAs (Decidable (∀ p ∈ candidate_levels cfg bars, cfg.min_touches ≤ p.2 →
    (p.1 < last_close bars → ∃ s ∈ support_candidates cfg bars, s.price = p.1) ∧
    (last_close bars < p.1 → ∃ r ∈ resistance_candidates cfg bars, r.price = p.1)))

/-- The per-row update of `ewm(span=s, adjust=False).mean()`:
`ema[t] = α·price[t] + (1−α)·ema[t−1]` with `α = 2/(span+1)`. -/
def emaStep (span : ℕ) (e p : ℚ) : ℚ :=
  2 / ((span : ℚ) + 1) * p + (1 - 2 / ((span : ℚ) + 1)) * e

/-- The whole `ewm(span=s, adjust=False).mean()` column, seeded with the
first close. -/
def emaSeries (span : ℕ) : List ℚ → List ℚ
  | [] => []
  | c :: cs => List.scanl (emaStep span) c cs

/-- The last entry of the `ewm` column (the value `calculate_simple_trend`
reads from `df.iloc[-1]`); `0` on the empty list, which the length guard
makes unreachable. -/
def emaLast (span : ℕ) : List ℚ → ℚ
  | [] => 0
  | c :: cs => cs.foldl (emaStep span) c

/-- Lines 38-41 of `trend_detector.py`: `recent = df['close'].tail(5)`,
`price_change_pct = (recent.iloc[-1] - recent.iloc[0]) / recent.iloc[0] * 100`.
`tail(5)` is the last `min(5, len)` closes, i.e. `drop (len - 5)`. -/
def price_change_pct (closes : List ℚ) : ℚ :=
  let recent := closes.drop (closes.length - 5)
  (recent.getLastD 0 - recent.headD 0) / recent.headD 0 * 100

/-- `calculate_simple_trend`, lines 18-64, on the `close` column: below 20
bars return `('NEUTRAL', 0.0)`; otherwise classify by the EMA ladder and the
5-bar momentum, and clamp the strength with `min(strength, 100.0)`. -/
def calculate_simple_trend (closes : List ℚ) : String × ℚ :=
  if closes.length < 20 then ("NEUTRAL", 0)
  else
    let close := closes.getLastD 0
    let ema_3 := emaLast 3 closes
    let ema_8 := emaLast 8 closes
    let ema_20 := emaLast 20 closes
    let pct := price_change_pct closes
    let res : String × ℚ :=
      if close < ema_3 ∧ ema_3 < ema_8 ∧ ema_8 < ema_20 ∧ pct < -1 then
        ("DOWNTREND", |(ema_20 - close) / ema_20| * 100)
      else if ema_3 < close ∧ ema_8 < ema_3 ∧ ema_20 < ema_8 ∧ 1 < pct then
        ("UPTREND", (close - ema_20) / ema_20 * 100)
      else if close < ema_8 ∧ close < ema_20 then
        ("DOWNTREND", |(ema_20 - close) / ema_20| * 100 * (7/10))
      else if ema_8 < close ∧ ema_20 < close then
        ("UPTREND", (close - ema_20) / ema_20 * 100 * (7/10))
      else
        ("SIDEWAYS", |(close - ema_20) / ema_20| * 100)
    (res.1, min res.2 100)

/-- The DataFrame passed to `calculate_simple_trend`: its `close` column and
the three EMA columns the method assigns (absent when the column does not
exist yet). -/
structure TrendFrame where
  close : List ℚ
  ema_3 : Option (List ℚ)
  ema_8 : Option (List ℚ)
  ema_20 : Option (List ℚ)
deriving DecidableEq

/-- `calculate_simple_trend` in state-passing form: the returned pair plus
the state of the caller's DataFrame after the call.  The method returns at
line 24 before touching the frame when there are fewer than 20 bars;
otherwise lines 27-29 assign the three EMA columns into the caller's frame
before the classification runs. -/
def calculate_simple_trend_df (df : TrendFrame) : (String × ℚ) × TrendFrame :=
  if df.close.length < 20 then (("NEUTRAL", 0), df)
  else
    (calculate_simple_trend df.close,
     ⟨df.close, some (emaSeries 3 df.close), some (emaSeries 8 df.close),
      some (emaSeries 20 df.close)⟩)

/-- `detect_sr_levels` in state-passing form: the method only reads `df`
(every derived frame - `recent_df`, the ATR series - is a fresh object), so
the caller's bar series after the call is the input itself. -/
def detect_sr_levels_df (cfg : SRConfig) (bars : List Bar)
    (max_support max_resistance : ℕ) :
    (List SimpleSRLevel × List SimpleSRLevel) × List Bar :=
  (detect_sr_levels cfg bars max_support max_resistance, bars)

/-- A flat series of 50 identical bars whose price sits exactly on a round
number. -/
def flat50 : List Bar := (List.range 50).map fun i => ⟨50, 50, 50, i⟩

/-- A 10-bar flat series (below every minimum-length threshold). -/
def flat10 : List Bar := (List.range 10).map fun i => ⟨50, 50, 50, i⟩

/-- A 50-bar series with two clustered swing highs (15 and 15.2 at positions
15 and 25) left far below the final close of 50 by a jump at bar 45. -/
def series50 : List Bar := (List.range 50).map fun i =>
  if i = 15 then ⟨15, 9, 10, i⟩
  else if i = 25 then ⟨76/5, 9, 10, i⟩
  else if 45 ≤ i then ⟨50, 50, 50, i⟩
  else ⟨10, 9, 10, i⟩

/-- `defaultSRConfig` with the lookback shortened to 50 bars, so that a
50-bar series already yields swing points. -/
def srConfig50 : SRConfig := ⟨50, 2, 1/2, true⟩

/-- 20 closes whose 15th entry differs from the 16th, separating the two
candidate momentum formulas. -/
def closes20 : List ℚ := [1, 1, 1, 1, 1, 1, 1, 1, 1, 1, 1, 1, 1, 1, 3, 1, 1, 1, 2, 4]

/-- A single bar whose high and low both sit on the level. -/
def oneBar : List Bar := [⟨100, 100, 100, 0⟩]

/-- A 20-bar frame without EMA columns, as a caller would pass it. -/
def trendFrame20 : TrendFrame := ⟨List.replicate 20 (10 : ℚ), none, none, none⟩

/-- The labels `calculate_simple_trend` can return. -/
def trendLabels : List String := ["UPTREND", "DOWNTREND", "SIDEWAYS", "NEUTRAL"]

theorem ite_some_eq {α : Type} {c : Prop} [Decidable c] {v x : α}
    (h : (if c then some v else none) = some x) : c ∧ x = v := by
  by_cases hc : c
  · rw [if_pos hc] at h
    exact ⟨hc, (Option.some_inj.mp h).symm⟩
  · rw [if_neg hc] at h
    cases h

theorem countP_or_le {α : Type} (p q : α → Bool) :
    ∀ l : List α, (l.countP fun a => p a || q a) ≤ l.countP p + l.countP q := by
  intro l
  induction l with
  | nil => simp
  | cons a l ih =>
    simp only [List.countP_cons]
    cases hp : p a <;> cases hq : q a <;> simp [hp, hq] <;> omega

/-- C7: with fewer than 20 bars `calculate_simple_trend` returns
`('NEUTRAL', 0.0)` and with fewer than 50 bars `detect_sr_levels` returns a
pair of empty lists; both embeddings are total functions, so neither raises. -/
theorem c7_insufficient_data (closes : List ℚ) (cfg : SRConfig) (bars : List Bar)
    (max_support max_resistance : ℕ) :
    (closes.length < 20 → calculate_simple_trend closes = ("NEUTRAL", 0)) ∧
    (bars.length < 50 → detect_sr_levels cfg bars max_support max_resistance = ([], [])) := by
  constructor
  · intro h
    unfold calculate_simple_trend
    rw [if_pos h]
  · intro h
    unfold detect_sr_levels
    rw [if_pos h]

/-- Witness for C7 at a 10-element close series and a 10-bar series. -/
theorem c7_witness :
    (List.replicate 10 (5 : ℚ)).length < 20 ∧ flat10.length < 50 ∧
    calculate_simple_trend (List.replicate 10 (5 : ℚ)) = ("NEUTRAL", 0) ∧
    detect_sr_levels defaultSRConfig flat10 3 3 = ([], []) :=
  ⟨by decide, by decide,
   (c7_insufficient_data (List.replicate 10 (5 : ℚ)) defaultSRConfig flat10 3 3).1 (by decide),
   (c7_insufficient_data (List.replicate 10 (5 : ℚ)) defaultSRConfig flat10 3 3).2 (by decide)⟩

/-- C4 (amended): `count_touches` returns the number of bars whose high is
within tolerance plus the number of bars whose low is, where the tolerance is
`atr * cluster_threshold_atr`; this sum is at least the number of bars whose
high or low is within tolerance (the quantity the original claim names) and
at most twice the bar count, a bar with both extremes in range counting
twice. -/
theorem c4_count_touches_bounds (cfg : SRConfig) (bars : List Bar) (p atr : ℚ) :
    (bars.countP fun b =>
      decide (p - atr * cfg.cluster_threshold_atr ≤ b.high ∧
              b.high ≤ p + atr * cfg.cluster_threshold_atr) ||
      decide (p - atr * cfg.cluster_threshold_atr ≤ b.low ∧
              b.low ≤ p + atr * cfg.cluster_threshold_atr)) ≤
        count_touches cfg bars p atr ∧
    count_touches cfg bars p atr ≤ 2 * bars.length := by
  simp only [count_touches]
  constructor
  · exact countP_or_le _ _ bars
  · have h1 := List.countP_le_length
      (p := fun b : Bar =>
        decide (p - atr * cfg.cluster_threshold_atr ≤ b.high ∧
                b.high ≤ p + atr * cfg.cluster_threshold_atr)) (l := bars)
    have h2 := List.countP_le_length
      (p := fun b : Bar =>
        decide (p - atr * cfg.cluster_threshold_atr ≤ b.low ∧
                b.low ≤ p + atr * cfg.cluster_threshold_atr)) (l := bars)
    omega

/-- Counterexample for C4 as stated: on a single bar whose high and low both
sit on the level, `count_touches` returns 2, which is neither the number of
touching bars (1) nor bounded by the bar count. -/
theorem c4_counterexample :
    ¬ (count_touches defaultSRConfig oneBar 100 2 =
         (oneBar.countP fun b =>
           decide (100 - 2 * defaultSRConfig.cluster_threshold_atr ≤ b.high ∧
                   b.high ≤ 100 + 2 * defaultSRConfig.cluster_threshold_atr) ||
           decide (100 - 2 * defaultSRConfig.cluster_threshold_atr ≤ b.low ∧
                   b.low ≤ 100 + 2 * defaultSRConfig.cluster_threshold_atr)) ∧
       count_touches defaultSRConfig oneBar 100 2 ≤ oneBar.length) := by decide

/-- C3 (amended): the short-term momentum `calculate_simple_trend` compares
against the ±1% thresholds is the percent change from the first to the last
of the trailing five bars, i.e. `(close[last] - close[last-4]) / close[last-4]
× 100` (`tail(5).iloc[0]` is four positions before the last bar, not five). -/
theorem c3_momentum_formula (closes : List ℚ) (h : 5 ≤ closes.length) :
    price_change_pct closes =
      (closes.getD (closes.length - 1) 0 - closes.getD (closes.length - 5) 0) /
        closes.getD (closes.length - 5) 0 * 100 := by
  simp only [price_change_pct]
  have h1 : (closes.drop (closes.length - 5)).headD 0 = closes.getD (closes.length - 5) 0 := by
    rw [List.headD_eq_head?_getD, List.head?_drop, List.getD_eq_getElem?_getD]
  have h2 : (closes.drop (closes.length - 5)).getLastD 0 =
      closes.getD (closes.length - 1) 0 := by
    rw [List.getLastD_eq_getLast?, List.getLast?_drop, if_neg (by omega),
      List.getLast?_eq_getElem?, List.getD_eq_getElem?_getD]
  rw [h1, h2]

/-- Counterexample for C3 as stated: on `closes20` the momentum the code
computes is 300%, while `(close[last] - close[last-5]) / close[last-5] × 100`
is 100/3%. -/
theorem c3_counterexample :
    ¬ (price_change_pct closes20 =
        (closes20.getD (closes20.length - 1) 0 - closes20.getD (closes20.length - 1 - 5) 0) /
          closes20.getD (closes20.length - 1 - 5) 0 * 100) := by decide

/-- Witness for C3 (amended) at `closes20`. -/
theorem c3_witness :
    5 ≤ closes20.length ∧
    price_change_pct closes20 =
      (closes20.getD (closes20.length - 1) 0 - closes20.getD (closes20.length - 5) 0) /
        closes20.getD (closes20.length - 5) 0 * 100 :=
  ⟨by decide, c3_momentum_formula closes20 (by decide)⟩

theorem roundIncrement_pos (m : ℚ) : 0 < roundIncrement m := by
  unfold roundIncrement
  split_ifs <;> norm_num

/-- C9: every price emitted by `find_round_numbers` lies within the given
range and is an exact multiple of 10 times the scale increment; the list is
sorted in (strictly) ascending order; and the increment is 500 above 10,000,
50 above 1,000, 5 above 100, and 1 otherwise. -/
theorem c9_round_numbers_spec (cfg : SRConfig) (minP maxP : ℚ) :
    (∀ x ∈ find_round_numbers cfg minP maxP,
      minP ≤ (x : ℚ) ∧ (x : ℚ) ≤ maxP ∧ (10 * roundIncrement maxP) ∣ x) ∧
    List.Pairwise (fun a b : ℤ => a < b) (find_round_numbers cfg minP maxP) ∧
    (10000 < maxP → roundIncrement maxP = 500) ∧
    (¬ 10000 < maxP → 1000 < maxP → roundIncrement maxP = 50) ∧
    (¬ 10000 < maxP → ¬ 1000 < maxP → 100 < maxP → roundIncrement maxP = 5) ∧
    (¬ 10000 < maxP → ¬ 1000 < maxP → ¬ 100 < maxP → roundIncrement maxP = 1) := by
  refine ⟨?_, ?_, ?_, ?_, ?_, ?_⟩
  · intro x hx
    by_cases hinc : cfg.include_round_numbers
    · simp only [find_round_numbers, hinc, Bool.not_true, Bool.false_eq_true, if_false,
        List.mem_filterMap] at hx
      obtain ⟨k, hk, heq⟩ := hx
      obtain ⟨⟨hc1, hc2, hc3⟩, rfl⟩ := ite_some_eq heq
      refine ⟨hc1, hc2, ?_⟩
      rw [mul_comm]
      exact Int.dvd_of_emod_eq_zero hc3
    · simp only [find_round_numbers, hinc] at hx
      simp at hx
  · by_cases hinc : cfg.include_round_numbers
    · simp only [find_round_numbers, hinc, Bool.not_true, Bool.false_eq_true, if_false]
      rw [List.pairwise_filterMap]
      apply List.Pairwise.imp ?_ (List.pairwise_lt_range _)
      intro a b hab v hv v2 hv2
      obtain ⟨_, rfl⟩ := ite_some_eq hv
      obtain ⟨_, rfl⟩ := ite_some_eq hv2
      have hpos := roundIncrement_pos maxP
      have : (a : ℤ) < (b : ℤ) := by exact_mod_cast hab
      have := mul_lt_mul_of_pos_right this hpos
      omega
    · simp only [find_round_numbers, hinc]
      simp
  · intro h
    unfold roundIncrement
    rw [if_pos h]
  · intro h1 h2
    unfold roundIncrement
    rw [if_neg h1, if_pos h2]
  · intro h1 h2 h3
    unfold roundIncrement
    rw [if_neg h1, if_neg h2, if_pos h3]
  · intro h1 h2 h3
    unfold roundIncrement
    rw [if_neg h1, if_neg h2, if_neg h3]

/-- Witness for C9: for the range `[47.5, 52.5]` the increment is 1 and the
only emitted level is 50, which lies in range and is a multiple of 10. -/
theorem c9_witness :
    50 ∈ find_round_numbers defaultSRConfig (95/2) (105/2) ∧
    (95/2 : ℚ) ≤ ((50 : ℤ) : ℚ) ∧ ((50 : ℤ) : ℚ) ≤ (105/2 : ℚ) ∧
    (10 * roundIncrement (105/2)) ∣ (50 : ℤ) :=
  ⟨by decide,
   (c9_round_numbers_spec defaultSRConfig (95/2) (105/2)).1 50 (by decide)⟩

theorem cluster_levels_nil (cfg : SRConfig) (atr : ℚ) : cluster_levels cfg [] atr = [] := rfl

theorem mem_support_candidates {cfg : SRConfig} {bars : List Bar} {s : SimpleSRLevel}
    (h : s ∈ support_candidates cfg bars) :
    s.price ≤ last_close bars ∧ (s.is_round_number = false → s.price < last_close bars) := by
  simp only [support_candidates] at h
  rcases List.mem_append.mp h with h | h
  · obtain ⟨lvl, _, heq⟩ := List.mem_filterMap.mp h
    obtain ⟨⟨hlt, _⟩, rfl⟩ := ite_some_eq heq
    exact ⟨le_of_lt hlt, fun _ => hlt⟩
  · obtain ⟨rp, _, heq⟩ := List.mem_filterMap.mp h
    obtain ⟨⟨_, hle⟩, rfl⟩ := ite_some_eq heq
    exact ⟨not_lt.mp hle, fun hfalse => Bool.noConfusion hfalse⟩

theorem mem_resistance_candidates {cfg : SRConfig} {bars : List Bar} {r : SimpleSRLevel}
    (h : r ∈ resistance_candidates cfg bars) : last_close bars < r.price := by
  simp only [resistance_candidates] at h
  rcases List.mem_append.mp h with h | h
  · obtain ⟨lvl, _, heq⟩ := List.mem_filterMap.mp h
    obtain ⟨⟨hlt, _⟩, rfl⟩ := ite_some_eq heq
    exact hlt
  · obtain ⟨rp, _, heq⟩ := List.mem_filterMap.mp h
    obtain ⟨⟨_, hlt⟩, rfl⟩ := ite_some_eq heq
    exact hlt

theorem mem_of_mem_detect_support {cfg : SRConfig} {bars : List Bar}
    {max_support max_resistance : ℕ} {l : SimpleSRLevel}
    (h : l ∈ (detect_sr_levels cfg bars max_support max_resistance).1) :
    l ∈ support_candidates cfg bars := by
  unfold detect_sr_levels at h
  by_cases hlen : bars.length < 50
  · rw [if_pos hlen] at h
    cases h
  · rw [if_neg hlen] at h
    exact (List.mem_insertionSort _).mp (List.mem_of_mem_take h)

theorem mem_of_mem_detect_resistance {cfg : SRConfig} {bars : List Bar}
    {max_support max_resistance : ℕ} {r : SimpleSRLevel}
    (h : r ∈ (detect_sr_levels cfg bars max_support max_resistance).2) :
    r ∈ resistance_candidates cfg bars := by
  unfold detect_sr_levels at h
  by_cases hlen : bars.length < 50
  · rw [if_pos hlen] at h
    cases h
  · rw [if_neg hlen] at h
    exact (List.mem_insertionSort _).mp (List.mem_of_mem_take h)

/-- C1 (amended): for a series of at least 50 bars, every returned support
level has price at most the last close - strictly below it whenever the level
is not a round number, a round number exactly at the close being classified
as support - every returned resistance level has price strictly above the
last close, and the two lists share no level. -/
theorem c1_support_resistance_partition (cfg : SRConfig) (bars : List Bar)
    (max_support max_resistance : ℕ) (_hlen : 50 ≤ bars.length) :
    (∀ l ∈ (detect_sr_levels cfg bars max_support max_resistance).1,
       l.price ≤ last_close bars ∧ (l.is_round_number = false → l.price < last_close bars)) ∧
    (∀ r ∈ (detect_sr_levels cfg bars max_support max_resistance).2,
       last_close bars < r.price) ∧
    (∀ l ∈ (detect_sr_levels cfg bars max_support max_resistance).1,
       ∀ r ∈ (detect_sr_levels cfg bars max_support max_resistance).2, l ≠ r) := by
  have hsup : ∀ l ∈ (detect_sr_levels cfg bars max_support max_resistance).1,
      l.price ≤ last_close bars ∧ (l.is_round_number = false → l.price < last_close bars) :=
    fun l hl => mem_support_candidates (mem_of_mem_detect_support hl)
  have hres : ∀ r ∈ (detect_sr_levels cfg bars max_support max_resistance).2,
      last_close bars < r.price :=
    fun r hr => mem_resistance_candidates (mem_of_mem_detect_resistance hr)
  refine ⟨hsup, hres, fun l hl r hr heq => ?_⟩
  have h1 := (hsup l hl).1
  have h2 := hres r hr
  rw [heq] at h1
  exact absurd (lt_of_lt_of_le h2 h1) (lt_irrefl _)

/-- Counterexample for C1 as stated: on the flat 50-bar series at price 50,
the support list contains the round-number level 50, whose price equals the
last close instead of lying strictly below it. -/
theorem c1_counterexample :
    ¬ (∀ l ∈ (detect_sr_levels defaultSRConfig flat50 3 3).1,
        l.price < last_close flat50) := by decide

/-- Witness for C1 (amended) at the flat 50-bar series. -/
theorem c1_witness :
    50 ≤ flat50.length ∧
    ∀ l ∈ (detect_sr_levels defaultSRConfig flat50 3 3).1, l.price ≤ last_close flat50 :=
  ⟨by decide, fun l hl =>
    ((c1_support_resistance_partition defaultSRConfig flat50 3 3 (by decide)).1 l hl).1⟩

/-- C5 (amended): swing-low clusters are considered only on the support side
(kept exactly when price < close and touches ≥ min_touches), swing-high
clusters only on the resistance side (kept exactly when price > close), and
only round numbers are partitioned by comparison with the close (at or below
the close → support, above it → resistance); every non-round support
(resistance) level originates from a swing-low (swing-high) cluster.  A
swing-high cluster below the close is discarded rather than considered as
support, and dually for swing-low clusters above the close. -/
theorem c5_origin_partition (cfg : SRConfig) (bars : List Bar) :
    (∀ lvl ∈ cluster_levels cfg (find_swing_points cfg bars).2 (calculate_atr_last bars),
       lvl.price < last_close bars → cfg.min_touches ≤ lvl.touches →
       ∃ s ∈ support_candidates cfg bars, s.price = lvl.price) ∧
    (∀ lvl ∈ cluster_levels cfg (find_swing_points cfg bars).1 (calculate_atr_last bars),
       last_close bars < lvl.price → cfg.min_touches ≤ lvl.touches →
       ∃ r ∈ resistance_candidates cfg bars, r.price = lvl.price) ∧
    (∀ rp ∈ round_numbers_for cfg bars,
       cfg.min_touches ≤ count_touches cfg bars (rp : ℚ) (calculate_atr_last bars) →
       (¬ last_close bars < (rp : ℚ) →
          ∃ s ∈ support_candidates cfg bars, s.price = (rp : ℚ)) ∧
       (last_close bars < (rp : ℚ) →
          ∃ r ∈ resistance_candidates cfg bars, r.price = (rp : ℚ))) ∧
    (∀ s ∈ support_candidates cfg bars, s.is_round_number = false →
       ∃ lvl ∈ cluster_levels cfg (find_swing_points cfg bars).2 (calculate_atr_last bars),
         lvl.price = s.price ∧ lvl.price < last_close bars) ∧
    (∀ r ∈ resistance_candidates cfg bars, r.is_round_number = false →
       ∃ lvl ∈ cluster_levels cfg (find_swing_points cfg bars).1 (calculate_atr_last bars),
         lvl.price = r.price ∧ last_close bars < lvl.price) := by
  refine ⟨?_, ?_, ?_, ?_, ?_⟩
  · intro lvl hmem hlt htouch
    refine ⟨⟨lvl.price, "support", lvl.touches, lvl.first_seen, lvl.last_seen, false⟩, ?_, rfl⟩
    simp only [support_candidates]
    refine List.mem_append_left _ (List.mem_filterMap.mpr ⟨lvl, hmem, ?_⟩)
    rw [if_pos ⟨hlt, htouch⟩]
  · intro lvl hmem hlt htouch
    refine ⟨⟨lvl.price, "resistance", lvl.touches, lvl.first_seen, lvl.last_seen, false⟩,
      ?_, rfl⟩
    simp only [resistance_candidates]
    refine List.mem_append_left _ (List.mem_filterMap.mpr ⟨lvl, hmem, ?_⟩)
    rw [if_pos ⟨hlt, htouch⟩]
  · intro rp hmem htouch
    constructor
    · intro hle
      refine ⟨⟨(rp : ℚ), "support", count_touches cfg bars (rp : ℚ) (calculate_atr_last bars),
        some (bars.headD defaultBar).date, some (bars.getLastD defaultBar).date, true⟩, ?_, rfl⟩
      simp only [support_candidates]
      refine List.mem_append_right _ (List.mem_filterMap.mpr ⟨rp, hmem, ?_⟩)
      rw [if_pos ⟨htouch, hle⟩]
    · intro hlt
      refine ⟨⟨(rp : ℚ), "resistance",
        count_touches cfg bars (rp : ℚ) (calculate_atr_last bars),
        some (bars.headD defaultBar).date, some (bars.getLastD defaultBar).date, true⟩, ?_, rfl⟩
      simp only [resistance_candidates]
      refine List.mem_append_right _ (List.mem_filterMap.mpr ⟨rp, hmem, ?_⟩)
      rw [if_pos ⟨htouch, hlt⟩]
  · intro s hs hround
    simp only [support_candidates] at hs
    rcases List.mem_append.mp hs with h | h
    · obtain ⟨lvl, hmem, heq⟩ := List.mem_filterMap.mp h
      obtain ⟨⟨hlt, _⟩, rfl⟩ := ite_some_eq heq
      exact ⟨lvl, hmem, rfl, hlt⟩
    · obtain ⟨rp, _, heq⟩ := List.mem_filterMap.mp h
      obtain ⟨_, rfl⟩ := ite_some_eq heq
      exact Bool.noConfusion hround
  · intro r hr hround
    simp only [resistance_candidates] at hr
    rcases List.mem_append.mp hr with h | h
    · obtain ⟨lvl, hmem, heq⟩ := List.mem_filterMap.mp h
      obtain ⟨⟨hlt, _⟩, rfl⟩ := ite_some_eq heq
      exact ⟨lvl, hmem, rfl, hlt⟩
    · obtain ⟨rp, _, heq⟩ := List.mem_filterMap.mp h
      obtain ⟨_, rfl⟩ := ite_some_eq heq
      exact Bool.noConfusion hround

/-- Counterexample for C5 as stated: on `series50` with a 50-bar lookback the
swing-high cluster at 15.1 has 2 touches and lies below the close of 50, yet
no support candidate carries its price - the detector never considers
swing-high clusters as support. -/
theorem c5_counterexample : ¬ partitionClaim srConfig50 series50 := by decide

/-- Witness for C5 (amended): the round number 10 of `series50` has enough
touches, is not above the close, and indeed appears among the support
candidates. -/
theorem c5_witness :
    (10 : ℤ) ∈ round_numbers_for srConfig50 series50 ∧
    ∃ s ∈ support_candidates srConfig50 series50, s.price = ((10 : ℤ) : ℚ) :=
  ⟨by decide,
   ((c5_origin_partition srConfig50 series50).2.2.1 10 (by decide) (by decide)).1 (by decide)⟩

theorem support_candidates_round_only {cfg : SRConfig} {bars : List Bar}
    (hsw : (find_swing_points cfg bars).2 = []) :
    ∀ l ∈ support_candidates cfg bars, l.is_round_number = true := by
  intro l hl
  simp only [support_candidates, hsw, cluster_levels_nil, List.filterMap_nil,
    List.nil_append, List.mem_filterMap] at hl
  obtain ⟨rp, _, heq⟩ := hl
  obtain ⟨_, rfl⟩ := ite_some_eq heq
  rfl

theorem resistance_candidates_round_only {cfg : SRConfig} {bars : List Bar}
    (hsw : (find_swing_points cfg bars).1 = []) :
    ∀ l ∈ resistance_candidates cfg bars, l.is_round_number = true := by
  intro l hl
  simp only [resistance_candidates, hsw, cluster_levels_nil, List.filterMap_nil,
    List.nil_append, List.mem_filterMap] at hl
  obtain ⟨rp, _, heq⟩ := hl
  obtain ⟨_, rfl⟩ := ite_some_eq heq
  rfl

/-- C10: with at least 50 but fewer than `lookback_bars` bars,
`find_swing_points` returns two empty lists, and every level returned by
`detect_sr_levels` is a round-number level. -/
theorem c10_short_series_rounds_only (cfg : SRConfig) (bars : List Bar)
    (max_support max_resistance : ℕ) (_h50 : 50 ≤ bars.length)
    (hlb : bars.length < cfg.lookback_bars) :
    find_swing_points cfg bars = ([], []) ∧
    (∀ l ∈ (detect_sr_levels cfg bars max_support max_resistance).1,
       l.is_round_number = true) ∧
    (∀ l ∈ (detect_sr_levels cfg bars max_support max_resistance).2,
       l.is_round_number = true) := by
  have hsp : find_swing_points cfg bars = ([], []) := by
    unfold find_swing_points
    rw [if_pos hlb]
  refine ⟨hsp, ?_, ?_⟩
  · intro l hl
    exact support_candidates_round_only (by rw [hsp]) l (mem_of_mem_detect_support hl)
  · intro l hl
    exact resistance_candidates_round_only (by rw [hsp]) l (mem_of_mem_detect_resistance hl)

/-- Witness for C10 at the flat 50-bar series under the default 100-bar
lookback. -/
theorem c10_witness :
    50 ≤ flat50.length ∧ flat50.length < defaultSRConfig.lookback_bars ∧
    find_swing_points defaultSRConfig flat50 = ([], []) ∧
    ∀ l ∈ (detect_sr_levels defaultSRConfig flat50 3 3).1, l.is_round_number = true :=
  ⟨by decide, by decide,
   (c10_short_series_rounds_only defaultSRConfig flat50 3 3 (by decide) (by decide)).1,
   (c10_short_series_rounds_only defaultSRConfig flat50 3 3 (by decide) (by decide)).2.1⟩

theorem emaFold_pos (span : ℕ) (hs : 1 ≤ span) :
    ∀ (cs : List ℚ) (e : ℚ), 0 < e → (∀ c ∈ cs, 0 < c) →
      0 < cs.foldl (emaStep span) e := by
  intro cs
  induction cs with
  | nil =>
    intro e he _
    simpa using he
  | cons c cs ih =>
    intro e he hall
    simp only [List.foldl_cons]
    apply ih
    · have hsp : (0 : ℚ) < (span : ℚ) + 1 := by positivity
      have ha : (0 : ℚ) < 2 / ((span : ℚ) + 1) := by positivity
      have hb : 2 / ((span : ℚ) + 1) ≤ 1 := by
        rw [div_le_one hsp]
        have : (1 : ℚ) ≤ (span : ℚ) := by exact_mod_cast hs
        linarith
      have hc := hall c (List.mem_cons_self c cs)
      unfold emaStep
      nlinarith [mul_pos ha hc,
        mul_nonneg (by linarith : (0 : ℚ) ≤ 1 - 2 / ((span : ℚ) + 1)) he.le]
    · intro x hx
      exact hall x (List.mem_cons_of_mem _ hx)

theorem emaLast_pos (span : ℕ) (hs : 1 ≤ span) (closes : List ℚ) (hne : closes ≠ [])
    (hpos : ∀ c ∈ closes, 0 < c) : 0 < emaLast span closes := by
  match closes, hne with
  | c :: cs, _ =>
    have := emaFold_pos span hs cs c (hpos c (by simp)) fun x hx => hpos x (by simp [hx])
    simpa [emaLast] using this

/-- C2: for every series of at least 20 positive closes,
`calculate_simple_trend` returns a label among UPTREND, DOWNTREND, SIDEWAYS,
NEUTRAL and a strength clamped into [0, 100]. -/
theorem c2_trend_label_strength (closes : List ℚ) (h20 : 20 ≤ closes.length)
    (hpos : ∀ c ∈ closes, 0 < c) :
    (calculate_simple_trend closes).1 ∈ trendLabels ∧
    0 ≤ (calculate_simple_trend closes).2 ∧ (calculate_simple_trend closes).2 ≤ 100 := by
  have hne : closes ≠ [] := by
    intro h
    rw [h] at h20
    simp at h20
  have hema20 : 0 < emaLast 20 closes := emaLast_pos 20 (by norm_num) closes hne hpos
  simp only [calculate_simple_trend]
  rw [if_neg (by omega)]
  split_ifs with h1 h2 h3 h4
  · refine ⟨by simp [trendLabels], le_min ?_ (by norm_num), min_le_right _ _⟩
    have : (0 : ℚ) ≤ |(emaLast 20 closes - closes.getLastD 0) / emaLast 20 closes| :=
      abs_nonneg _
    nlinarith
  · refine ⟨by simp [trendLabels], le_min ?_ (by norm_num), min_le_right _ _⟩
    have hgt : emaLast 20 closes < closes.getLastD 0 :=
      lt_trans h2.2.2.1 (lt_trans h2.2.1 h2.1)
    have hnum : (0 : ℚ) ≤ closes.getLastD 0 - emaLast 20 closes := by linarith
    have := div_nonneg hnum hema20.le
    nlinarith
  · refine ⟨by simp [trendLabels], le_min ?_ (by norm_num), min_le_right _ _⟩
    have : (0 : ℚ) ≤ |(emaLast 20 closes - closes.getLastD 0) / emaLast 20 closes| :=
      abs_nonneg _
    nlinarith
  · refine ⟨by simp [trendLabels], le_min ?_ (by norm_num), min_le_right _ _⟩
    have hnum : (0 : ℚ) ≤ closes.getLastD 0 - emaLast 20 closes := by linarith [h4.2]
    have := div_nonneg hnum hema20.le
    nlinarith
  · refine ⟨by simp [trendLabels], le_min ?_ (by norm_num), min_le_right _ _⟩
    have : (0 : ℚ) ≤ |(closes.getLastD 0 - emaLast 20 closes) / emaLast 20 closes| :=
      abs_nonneg _
    nlinarith

/-- Witness for C2 at a constant 20-bar series. -/
theorem c2_witness :
    20 ≤ (List.replicate 20 (10 : ℚ)).length ∧
    (∀ c ∈ List.replicate 20 (10 : ℚ), 0 < c) ∧
    (calculate_simple_trend (List.replicate 20 (10 : ℚ))).1 ∈ trendLabels ∧
    0 ≤ (calculate_simple_trend (List.replicate 20 (10 : ℚ))).2 ∧
    (calculate_simple_trend (List.replicate 20 (10 : ℚ))).2 ≤ 100 :=
  ⟨by decide, by decide,
   (c2_trend_label_strength (List.replicate 20 (10 : ℚ)) (by decide) (by decide)).1,
   (c2_trend_label_strength (List.replicate 20 (10 : ℚ)) (by decide) (by decide)).2.1,
   (c2_trend_label_strength (List.replicate 20 (10 : ℚ)) (by decide) (by decide)).2.2⟩

theorem scanl_getLast_eq_foldl (f : ℚ → ℚ → ℚ) :
    ∀ (cs : List ℚ) (c : ℚ), (List.scanl f c cs).getLast? = some (cs.foldl f c) := by
  intro cs
  induction cs with
  | nil =>
    intro c
    rfl
  | cons p ps ih =>
    intro c
    simp only [List.scanl, List.foldl_cons]
    cases hsc : List.scanl f (f c p) ps with
    | nil =>
      have h2 := ih (f c p)
      rw [hsc] at h2
      cases h2
    | cons y ys =>
      have := ih (f c p)
      rw [hsc] at this
      rw [List.getLast?_cons_cons]
      exact this

/-- The last entry of the assigned `ewm` column is exactly the value
`calculate_simple_trend` uses: reading `df.iloc[-1]['ema_N']` after the
assignment of lines 27-29 agrees with the recursive fold. -/
theorem emaLast_eq_emaSeries_getLast (span : ℕ) (closes : List ℚ) :
    emaLast span closes = (emaSeries span closes).getLastD 0 := by
  cases closes with
  | nil => rfl
  | cons c cs =>
    simp only [emaLast, emaSeries, List.getLastD_eq_getLast?,
      scanl_getLast_eq_foldl (emaStep span) cs c, Option.getD_some]

/-- C8 (amended): `detect_sr_levels` leaves the caller's bar series
unchanged, and `calculate_simple_trend` leaves it unchanged when the guard
returns early (fewer than 20 bars) and otherwise returns the same value as
the pure classification while adding the three EMA columns to the caller's
frame - the close column itself is never modified. -/
theorem c8_frame_effects (df : TrendFrame) (cfg : SRConfig) (bars : List Bar)
    (max_support max_resistance : ℕ) :
    ((calculate_simple_trend_df df).1 = calculate_simple_trend df.close) ∧
    ((calculate_simple_trend_df df).2.close = df.close) ∧
    (df.close.length < 20 → (calculate_simple_trend_df df).2 = df) ∧
    ((calculate_simple_trend_df df).2 =
      if df.close.length < 20 then df
      else ⟨df.close, some (emaSeries 3 df.close), some (emaSeries 8 df.close),
            some (emaSeries 20 df.close)⟩) ∧
    ((detect_sr_levels_df cfg bars max_support max_resistance).2 = bars) := by
  refine ⟨?_, ?_, ?_, ?_, rfl⟩
  · unfold calculate_simple_trend_df
    split_ifs with h
    · simp only [calculate_simple_trend]
      rw [if_pos h]
    · rfl
  · unfold calculate_simple_trend_df
    split_ifs <;> rfl
  · intro h
    unfold calculate_simple_trend_df
    rw [if_pos h]
  · unfold calculate_simple_trend_df
    split_ifs <;> rfl

/-- Counterexample for C8 as stated: calling the trend classifier on a
20-bar frame adds the `ema_3`, `ema_8`, `ema_20` columns to the caller's
DataFrame, so the input frame is *not* unchanged. -/
theorem c8_counterexample : (calculate_simple_trend_df trendFrame20).2 ≠ trendFrame20 := by
  decide

/-- Witness for C8 (amended): the returned value agrees with the pure
classification on a 20-bar frame, and a 10-bar frame is returned untouched. -/
theorem c8_witness :
    ((calculate_simple_trend_df trendFrame20).1 = calculate_simple_trend trendFrame20.close) ∧
    ((calculate_simple_trend_df (TrendFrame.mk (List.replicate 10 (10 : ℚ)) none none none)).2 =
      TrendFrame.mk (List.replicate 10 (10 : ℚ)) none none none) ∧
    ((detect_sr_levels_df defaultSRConfig flat10 3 3).2 = flat10) :=
  ⟨(c8_frame_effects trendFrame20 defaultSRConfig flat10 3 3).1,
   (c8_frame_effects (TrendFrame.mk (List.replicate 10 (10 : ℚ)) none none none)
      defaultSRConfig flat10 3 3).2.2.1 (by decide),
   (c8_frame_effects trendFrame20 defaultSRConfig flat10 3 3).2.2.2.2⟩

theorem clusterLoop_length (thr : ℚ) :
    ∀ (rest current : List RawLevel),
      (clusterLoop thr current rest).length = clusterBreaks thr current rest + 1 := by
  intro rest
  induction rest with
  | nil =>
    intro c
    simp [clusterLoop, clusterBreaks]
  | cons x ls ih =>
    intro c
    simp only [clusterLoop, clusterBreaks]
    split_ifs with h
    · exact ih (c ++ [x])
    · simp only [List.length_cons]
      rw [ih [x]]

theorem mul_length_le_sum (x : ℚ) :
    ∀ b : List ℚ, (∀ y ∈ b, x ≤ y) → x * (b.length : ℚ) ≤ b.sum := by
  intro b
  induction b with
  | nil =>
    intro _
    simp
  | cons y ys ih =>
    intro h
    have h1 := h y (List.mem_cons_self y ys)
    have h2 := ih fun z hz => h z (List.mem_cons_of_mem _ hz)
    simp only [List.length_cons, List.sum_cons]
    push_cast
    nlinarith

theorem sum_le_mul_length (x : ℚ) :
    ∀ b : List ℚ, (∀ y ∈ b, y ≤ x) → b.sum ≤ x * (b.length : ℚ) := by
  intro b
  induction b with
  | nil =>
    intro _
    simp
  | cons y ys ih =>
    intro h
    have h1 := h y (List.mem_cons_self y ys)
    have h2 := ih fun z hz => h z (List.mem_cons_of_mem _ hz)
    simp only [List.length_cons, List.sum_cons]
    push_cast
    nlinarith

theorem sums_cross (b : List ℚ) :
    ∀ a : List ℚ, (∀ x ∈ a, ∀ y ∈ b, x ≤ y) →
      a.sum * (b.length : ℚ) ≤ b.sum * (a.length : ℚ) := by
  intro a
  induction a with
  | nil =>
    intro _
    simp
  | cons x xs ih =>
    intro h
    have h1 : x * (b.length : ℚ) ≤ b.sum :=
      mul_length_le_sum x b (h x (List.mem_cons_self x xs))
    have h2 := ih fun z hz y hy => h z (List.mem_cons_of_mem _ hz) y hy
    simp only [List.sum_cons, List.length_cons]
    push_cast
    nlinarith

theorem clusterMean_le_of_mem_le (c : List RawLevel) (x : ℚ) (hne : c ≠ [])
    (h : ∀ l ∈ c, l.price ≤ x) : clusterMean c ≤ x := by
  have hlen : (0 : ℚ) < (c.length : ℚ) := by
    have := List.length_pos.mpr hne
    exact_mod_cast this
  unfold clusterMean
  rw [div_le_iff₀ hlen]
  have hsum := sum_le_mul_length x (c.map RawLevel.price) ?_
  · simpa using hsum
  · intro y hy
    obtain ⟨l, hl, rfl⟩ := List.mem_map.mp hy
    exact h l hl

/-- The running cluster of the run with the larger threshold is always a
suffix of the other run's cluster (same close count), and for a price-sorted
cluster a suffix has the larger mean. -/
theorem clusterMean_suffix_ge (c1 c2 : List RawLevel) (hsuf : c2 <:+ c1) (hne : c2 ≠ [])
    (hsorted : List.Pairwise rawLe c1) : clusterMean c1 ≤ clusterMean c2 := by
  obtain ⟨pre, rfl⟩ := hsuf
  have hcross := sums_cross (c2.map RawLevel.price) (pre.map RawLevel.price) ?_
  · have hl2 : (0 : ℚ) < (c2.length : ℚ) := by
      have := List.length_pos.mpr hne
      exact_mod_cast this
    have hl12 : (0 : ℚ) < ((pre ++ c2).length : ℚ) := by
      have h0 := List.length_pos.mpr hne
      have : 0 < (pre ++ c2).length := by
        rw [List.length_append]
        omega
      exact_mod_cast this
    unfold clusterMean
    rw [div_le_div_iff₀ hl12 hl2]
    simp only [List.length_map, List.map_append, List.sum_append, List.length_append]
      at hcross ⊢
    push_cast at hcross ⊢
    nlinarith
  · intro y hy z hz
    obtain ⟨ly, hly, rfl⟩ := List.mem_map.mp hy
    obtain ⟨lz, hlz, rfl⟩ := List.mem_map.mp hz
    exact (List.pairwise_append.mp hsorted).2.2 ly hly lz hlz

/-- Coupled-run invariant for the greedy clustering walk over a price-sorted
tail: with thresholds `t1 ≤ t2`, (a) if the `t2`-run's current cluster is a
suffix of the `t1`-run's (both runs have closed equally many clusters so
far), the `t2` run closes no more clusters than the `t1` run; (b) from
arbitrary nonempty states the `t2` run closes at most one cluster more. -/
theorem clusterBreaks_aux (t1 t2 : ℚ) (h12 : t1 ≤ t2) :
    ∀ rest : List RawLevel,
      (∀ c1 c2 : List RawLevel, List.Pairwise rawLe (c1 ++ rest) → c2 <:+ c1 → c2 ≠ [] →
        clusterBreaks t2 c2 rest ≤ clusterBreaks t1 c1 rest) ∧
      (∀ c1 c2 : List RawLevel, List.Pairwise rawLe (c1 ++ rest) → c1 ≠ [] → c2 ≠ [] →
        clusterBreaks t2 c2 rest ≤ clusterBreaks t1 c1 rest + 1) := by
  intro rest
  induction rest with
  | nil =>
    constructor
    · intro c1 c2 _ _ _
      simp [clusterBreaks]
    · intro c1 c2 _ _ _
      simp [clusterBreaks]
  | cons x ls ih =>
    obtain ⟨ihA, ihB⟩ := ih
    constructor
    · intro c1 c2 hs hsuf hne
      have hc1ne : c1 ≠ [] := by
        intro hnil
        subst hnil
        obtain ⟨t, ht⟩ := hsuf
        exact hne (List.append_eq_nil.mp ht).2
      have hxc1 : ∀ l ∈ c1, l.price ≤ x.price := fun l hl =>
        (List.pairwise_append.mp hs).2.2 l hl x (List.mem_cons_self x ls)
      have hxc2 : ∀ l ∈ c2, l.price ≤ x.price := fun l hl => hxc1 l (hsuf.subset hl)
      have hm1x : clusterMean c1 ≤ x.price := clusterMean_le_of_mem_le c1 x.price hc1ne hxc1
      have hm2x : clusterMean c2 ≤ x.price := clusterMean_le_of_mem_le c2 x.price hne hxc2
      have hmm : clusterMean c1 ≤ clusterMean c2 :=
        clusterMean_suffix_ge c1 c2 hsuf hne (List.pairwise_append.mp hs).1
      have hs2 : List.Pairwise rawLe ((c1 ++ [x]) ++ ls) := by
        rw [List.append_assoc, List.singleton_append]
        exact hs
      have hsxls : List.Pairwise rawLe ([x] ++ ls) := by
        rw [List.singleton_append]
        exact (List.pairwise_append.mp hs).2.1
      have hsufx : c2 ++ [x] <:+ c1 ++ [x] := by
        obtain ⟨pre, rfl⟩ := hsuf
        exact ⟨pre, by rw [List.append_assoc]⟩
      simp only [clusterBreaks]
      by_cases h1 : |x.price - clusterMean c1| ≤ t1
      · have h2 : |x.price - clusterMean c2| ≤ t2 := by
          have e1 : |x.price - clusterMean c1| = x.price - clusterMean c1 :=
            abs_of_nonneg (by linarith)
          have e2 : |x.price - clusterMean c2| = x.price - clusterMean c2 :=
            abs_of_nonneg (by linarith)
          rw [e1] at h1
          rw [e2]
          linarith
        rw [if_pos h1, if_pos h2]
        exact ihA (c1 ++ [x]) (c2 ++ [x]) hs2 hsufx (by simp)
      · rw [if_neg h1]
        by_cases h2 : |x.price - clusterMean c2| ≤ t2
        · rw [if_pos h2]
          exact ihB [x] (c2 ++ [x]) hsxls (by simp) (by simp)
        · rw [if_neg h2]
          have := ihA [x] [x] hsxls (List.suffix_refl _) (by simp)
          omega
    · intro c1 c2 hs hne1 hne2
      have hs2 : List.Pairwise rawLe ((c1 ++ [x]) ++ ls) := by
        rw [List.append_assoc, List.singleton_append]
        exact hs
      have hsxls : List.Pairwise rawLe ([x] ++ ls) := by
        rw [List.singleton_append]
        exact (List.pairwise_append.mp hs).2.1
      simp only [clusterBreaks]
      by_cases h2 : |x.price - clusterMean c2| ≤ t2
      · rw [if_pos h2]
        by_cases h1 : |x.price - clusterMean c1| ≤ t1
        · rw [if_pos h1]
          exact ihB (c1 ++ [x]) (c2 ++ [x]) hs2 (by simp) (by simp)
        · rw [if_neg h1]
          have := ihB [x] (c2 ++ [x]) hsxls (by simp) (by simp)
          omega
      · rw [if_neg h2]
        by_cases h1 : |x.price - clusterMean c1| ≤ t1
        · rw [if_pos h1]
          have := ihA (c1 ++ [x]) [x] hs2 ⟨c1, rfl⟩ (by simp)
          omega
        · rw [if_neg h1]
          have := ihA [x] [x] hsxls (List.suffix_refl _) (by simp)
          omega

/-- C6: for a fixed candidate list and a fixed nonnegative ATR, increasing
the clustering multiplier never increases the number of clusters returned by
`cluster_levels` (monotonic coarsening).  ATR values are nonnegative for any
series of at least 14 bars since every true range from the second bar on is a
max over absolute values. -/
theorem c6_cluster_levels_mono (cfg : SRConfig) (levels : List RawLevel) (atr m1 m2 : ℚ)
    (hatr : 0 ≤ atr) (hm : m1 ≤ m2) :
    (cluster_levels { cfg with cluster_threshold_atr := m2 } levels atr).length ≤
    (cluster_levels { cfg with cluster_threshold_atr := m1 } levels atr).length := by
  have hthr : atr * m1 ≤ atr * m2 := mul_le_mul_of_nonneg_left hm hatr
  cases hsort : List.insertionSort rawLe levels with
  | nil =>
    have e1 : cluster_levels { cfg with cluster_threshold_atr := m2 } levels atr = [] := by
      unfold cluster_levels
      rw [hsort]
    have e2 : cluster_levels { cfg with cluster_threshold_atr := m1 } levels atr = [] := by
      unfold cluster_levels
      rw [hsort]
    rw [e1, e2]
  | cons f r =>
    have hsorted : List.Pairwise rawLe (f :: r) := by
      have hss := List.sorted_insertionSort rawLe levels
      rw [hsort] at hss
      exact hss
    have e1 : cluster_levels { cfg with cluster_threshold_atr := m2 } levels atr =
        clusterLoop (atr * m2) [f] r := by
      unfold cluster_levels
      rw [hsort]
    have e2 : cluster_levels { cfg with cluster_threshold_atr := m1 } levels atr =
        clusterLoop (atr * m1) [f] r := by
      unfold cluster_levels
      rw [hsort]
    rw [e1, e2, clusterLoop_length, clusterLoop_length]
    have hkey := (clusterBreaks_aux (atr * m1) (atr * m2) hthr r).1 [f] [f]
      (by rwa [List.singleton_append]) (List.suffix_refl _) (by simp)
    omega

/-- Witness for C6 on a concrete three-point candidate list with ATR 2 and
multipliers 1 ≤ 4. -/
theorem c6_witness :
    (0 : ℚ) ≤ 2 ∧ (1 : ℚ) ≤ 4 ∧
    (cluster_levels { defaultSRConfig with cluster_threshold_atr := 4 }
        [⟨0, 0, 0⟩, ⟨1, 10, 1⟩, ⟨2, 20, 2⟩] 2).length ≤
    (cluster_levels { defaultSRConfig with cluster_threshold_atr := 1 }
        [⟨0, 0, 0⟩, ⟨1, 10, 1⟩, ⟨2, 20, 2⟩] 2).length :=
  ⟨by norm_num, by norm_num,
   c6_cluster_levels_mono defaultSRConfig [⟨0, 0, 0⟩, ⟨1, 10, 1⟩, ⟨2, 20, 2⟩] 2 1 4
     (by norm_num) (by norm_num)⟩
